import Mathlib

/-!
Verification development for the Robofactor repository.

The core under study is `robofactor/refactoring/extractor.py`: it parses a
Python source file with libcst, walks the concrete syntax tree collecting
top-level function definitions (functions not lexically nested inside a
class definition), extracts each function's source text by line span,
filters by a minimum line count, sorts the survivors by line count
descending (stable), optionally persists the result as JSON, and wraps any
failure in a single `RuntimeError` carrying the file path.

The shallow embedding below translates the extractor's own logic directly.
External library behaviour that the extractor relies on is modelled
faithfully at the interface:
  * `str.splitlines`  -> `splitlines` (splits on the documented Python line
    boundary characters, dropping the terminators);
  * list slicing `xs[a:b]` with non-negative bounds -> `py_slice`
    (libcst position lines are 1-indexed, so `start_line - 1 >= 0`);
  * `'\n'.join`       -> `join_newline`;
  * `list.sort(key=..., reverse=True)` (a stable sort) -> `List.mergeSort`
    with the reversed comparator;
  * the libcst CST and its visitor protocol -> the `Node` tree and
    `find_in_list`, which performs the same pre-order walk with the same
    class-nesting depth counter as `FunctionFinder`;
  * `json.dump(..., indent=2, ensure_ascii=False)` -> `render_json` /
    `json_dump`;
  * file reading and `cst.parse_module` -> `Except`-valued inputs of the
    orchestrator `extract_large_functions`;
  * `hmac`/`hashlib` in `app/main.py` -> an abstract HMAC-hex function
    passed as a parameter to `verify_signature`.
-/

/-! ## Python string model: `str.splitlines` and `'\n'.join` -/

/-- The line-boundary characters recognised by Python's `str.splitlines`:
LF, CR (and CRLF as a single boundary, handled in `split_lines_chars`),
vertical tab, form feed, the separators FS/GS/RS, NEL, LINE SEPARATOR and
PARAGRAPH SEPARATOR. -/
def is_line_break (c : Char) : Bool :=
  c == '\n' || c == '\r' || c == '\x0b' || c == '\x0c' || c == '\x1c' ||
  c == '\x1d' || c == '\x1e' || c == '\x85' || c == '\u2028' || c == '\u2029'

/-- Character-level model of Python's `str.splitlines()`, processing one
character at a time; the flag records that the previous character was a
`'\r'`, so that an immediately following `'\n'` is swallowed as part of the
same `"\r\n"` boundary.  Terminators are dropped and a trailing terminator
does not produce a final empty line. -/
def split_lines_go (after_cr : Bool) : List Char → List (List Char)
  | [] => []
  | c :: rest =>
    if after_cr && c == '\n' then split_lines_go false rest
    else if c == '\r' then [] :: split_lines_go true rest
    else if is_line_break c then [] :: split_lines_go false rest
    else
      match split_lines_go false rest with
      | [] => [[c]]
      | l :: ls => (c :: l) :: ls

/-- Character-level model of Python's `str.splitlines()`: split at every
line boundary of `is_line_break`, treating `"\r\n"` as a single boundary,
and drop the terminators.  `"".splitlines() = []`. -/
def split_lines_chars (cs : List Char) : List (List Char) :=
  split_lines_go false cs

/-- `source_code.splitlines()` from the extractor, as a `String` operation. -/
def splitlines (s : String) : List String :=
  (split_lines_chars s.data).map (fun cs => String.mk cs)

/-- Python's `'\n'.join(lines)` on strings. -/
def join_newline : List String → String
  | [] => ""
  | [l] => l
  | l :: ls => l ++ "\n" ++ join_newline ls

/-- Character-level `'\n'.join`, used to reason about `join_newline`. -/
def join_nl_chars : List (List Char) → List Char
  | [] => []
  | [l] => l
  | l :: ls => l ++ '\n' :: join_nl_chars ls

/-- Python list slicing `xs[a:b]` for non-negative bounds `a`, `b`
(out-of-range bounds are clamped, exactly as `List.drop`/`List.take`
clamp). -/
def py_slice (xs : List String) (a b : Nat) : List String :=
  (xs.drop a).take (b - a)

/-! ## Data model of the extractor -/

/-- The `(start.line, end.line)` pair that `cst.metadata.PositionProvider`
attaches to a node; libcst reports 1-indexed, inclusive line numbers. -/
structure Span where
  start_line : Nat
  end_line : Nat
deriving Repr, DecidableEq

/-- The dictionary built by `_extract_function_info`:
`{"function_name": ..., "line_count": ..., "code": ...}`. -/
structure FunctionRecord where
  function_name : String
  line_count : Int
  code : String
deriving Repr, DecidableEq

/-- `_extract_function_info(node, source_lines, visitor)` from
`extractor.py` lines 19-32: reads the node's position metadata, computes
`line_count = end_line - start_line + 1` and slices
`source_lines[start_line - 1:end_line]`, joining the lines with `'\n'`.
The node's name and its position metadata are the `name` and `position`
parameters here. -/
def extract_function_info (name : String) (position : Span)
    (source_lines : List String) : FunctionRecord :=
  let start_line := position.start_line
  let end_line := position.end_line
  let line_count : Int := (end_line : Int) - (start_line : Int) + 1
  let function_code := join_newline (py_slice source_lines (start_line - 1) end_line)
  { function_name := name, line_count := line_count, code := function_code }

/-- The concrete syntax tree as far as the extractor's visitor observes it:
libcst `FunctionDef` nodes (carrying the `node.name.value` string and the
position metadata), `ClassDef` nodes, and all other node kinds.  Children
appear in document order, so a pre-order walk visits function definitions
in their order of appearance in the source file. -/
inductive Node where
  | FunctionDef (name : String) (position : Span) (children : List Node)
  | ClassDef (children : List Node)
  | Other (children : List Node)

/-- The `FunctionFinder` visitor of `_find_large_functions` (extractor.py
lines 40-56), written as a pre-order walk over a forest with the mutable
`self.depth` counter threaded explicitly: `visit_ClassDef` increments the
depth before a class's children and `leave_ClassDef` restores it after;
`visit_FunctionDef` appends
`_extract_function_info(...)` when `self.depth == 0` and
`func_info["line_count"] >= min_lines`; every node's children are then
visited (libcst visits children when `visit_*` returns `None`). -/
def find_in_list (source_lines : List String) (min_lines : Int) :
    Nat → List Node → List FunctionRecord
  | _, [] => []
  | depth, Node.FunctionDef name position children :: rest =>
    (if depth = 0 then
      (let func_info := extract_function_info name position source_lines
       if min_lines ≤ func_info.line_count then [func_info] else [])
     else [])
    ++ find_in_list source_lines min_lines depth children
    ++ find_in_list source_lines min_lines depth rest
  | depth, Node.ClassDef children :: rest =>
    find_in_list source_lines min_lines (depth + 1) children
    ++ find_in_list source_lines min_lines depth rest
  | depth, Node.Other children :: rest =>
    find_in_list source_lines min_lines depth children
    ++ find_in_list source_lines min_lines depth rest

/-- `_find_large_functions(tree, source_lines, min_lines)`: run the visitor
over the module's children starting at depth 0.  A libcst `Module` is not a
`FunctionDef` or `ClassDef`, so the walk over the module is the walk over
its body forest. -/
def find_large_functions (tree : List Node) (source_lines : List String)
    (min_lines : Int) : List FunctionRecord :=
  find_in_list source_lines min_lines 0 tree

/-- `functions.sort(key=lambda x: x["line_count"], reverse=True)`: CPython's
sort is stable, and with `reverse=True` it orders by the key descending
while equal-key elements keep their original relative order.  This is
exactly a stable merge sort under the reversed comparator. -/
def sort_functions (functions : List FunctionRecord) : List FunctionRecord :=
  List.mergeSort functions (fun a b => decide (b.line_count ≤ a.line_count))

/-! ## JSON model: `json.dump(functions, f, indent=2, ensure_ascii=False)` -/

/-- JSON values, as far as the serialized result uses them. -/
inductive Json where
  | jstr (s : String)
  | jint (n : Int)
  | jarr (xs : List Json)
  | jobj (fields : List (String × Json))

/-- One result dictionary as a JSON object; the insertion order of
`_extract_function_info`'s dict — `function_name`, `line_count`, `code` —
is the field order `json.dump` writes. -/
def record_to_json (r : FunctionRecord) : Json :=
  Json.jobj [("function_name", Json.jstr r.function_name),
             ("line_count", Json.jint r.line_count),
             ("code", Json.jstr r.code)]

/-- The persisted value: an array of objects in the result list's order. -/
def results_to_json (rs : List FunctionRecord) : Json :=
  Json.jarr (rs.map record_to_json)

/-- Reading one object back from the persisted structure. -/
def json_to_record : Json → Option FunctionRecord
  | Json.jobj [("function_name", Json.jstr n), ("line_count", Json.jint c),
               ("code", Json.jstr code)] =>
    some { function_name := n, line_count := c, code := code }
  | _ => none

/-- Reading the list of objects back, element by element. -/
def decode_record_list : List Json → Option (List FunctionRecord)
  | [] => some []
  | j :: js =>
    match json_to_record j, decode_record_list js with
    | some r, some rs => some (r :: rs)
    | _, _ => none

/-- Reading the persisted structure back (`json.load` of the written file,
then checking the array-of-objects shape). -/
def json_to_results : Json → Option (List FunctionRecord)
  | Json.jarr xs => decode_record_list xs
  | _ => none

/-- Lowercase hex digit, for `\u00XX` escapes of control characters. -/
def hex_digit : Nat → Char
  | 0 => '0' | 1 => '1' | 2 => '2' | 3 => '3' | 4 => '4' | 5 => '5'
  | 6 => '6' | 7 => '7' | 8 => '8' | 9 => '9' | 10 => 'a' | 11 => 'b'
  | 12 => 'c' | 13 => 'd' | 14 => 'e' | _ => 'f'

/-- Decimal digits of a natural number, most significant first, with
explicit fuel to keep the recursion structural (`hex_digit` doubles as the
decimal digit table for values below 10; any fuel above `n` suffices). -/
def nat_repr_go : Nat → Nat → List Char
  | 0, _ => []
  | fuel + 1, n =>
    if n < 10 then [hex_digit n]
    else nat_repr_go fuel (n / 10) ++ [hex_digit (n % 10)]

/-- Decimal digits of a natural number, most significant first. -/
def nat_repr_chars (n : Nat) : List Char :=
  nat_repr_go (n + 1) n

/-- Decimal rendering of an integer, as Python's `repr`/`json.dump` write
`line_count`. -/
def int_repr (n : Int) : String :=
  if n < 0 then "-" ++ String.mk (nat_repr_chars (- n).toNat)
  else String.mk (nat_repr_chars n.toNat)

/-- How Python's `json` module (with `ensure_ascii=False`) escapes one
character inside a string literal: `"` and `\` get a backslash, the named
control characters use their short escapes, the remaining characters below
U+0020 use `\u00XX`, and everything else is written as itself. -/
def json_escape_char (c : Char) : List Char :=
  if c = '"' then ['\\', '"']
  else if c = '\\' then ['\\', '\\']
  else if c = '\n' then ['\\', 'n']
  else if c = '\r' then ['\\', 'r']
  else if c = '\t' then ['\\', 't']
  else if c = '\x08' then ['\\', 'b']
  else if c = '\x0c' then ['\\', 'f']
  else if c.toNat < 32 then
    ['\\', 'u', '0', '0', hex_digit (c.toNat / 16), hex_digit (c.toNat % 16)]
  else [c]

/-- A JSON string literal's body, escaped as `json.dump` writes it. -/
def json_escape (s : String) : String :=
  String.mk (s.data.flatMap json_escape_char)

/-- `"\n"` followed by the 2-space indentation of the given nesting level,
as `json.dump(..., indent=2)` separates items. -/
def nl_indent (level : Nat) : String :=
  "\n" ++ String.mk (List.replicate (2 * level) ' ')

mutual

/-- Textual rendering of a JSON value at a nesting level, following
`json.dump(..., indent=2, ensure_ascii=False)`: empty containers render
as `[]`/`\x7b\x7d`; non-empty containers put every item on its own
indented line, items separated by `","`, the key separator is `": "`. -/
def render_json : Nat → Json → String
  | _, Json.jstr s => "\"" ++ json_escape s ++ "\""
  | _, Json.jint n => int_repr n
  | _, Json.jarr [] => "[]"
  | level, Json.jarr (x :: xs) =>
    "[" ++ render_items (level + 1) x xs ++ nl_indent level ++ "]"
  | _, Json.jobj [] => "\x7b\x7d"
  | level, Json.jobj (f :: fs) =>
    "\x7b" ++ render_fields (level + 1) f fs ++ nl_indent level ++ "\x7d"
termination_by _ j => sizeOf j

/-- The items of a non-empty array, each on its own indented line. -/
def render_items (level : Nat) : Json → List Json → String
  | x, [] => nl_indent level ++ render_json level x
  | x, y :: ys => nl_indent level ++ render_json level x ++ "," ++ render_items level y ys
termination_by x xs => sizeOf x + sizeOf xs

/-- The fields of a non-empty object, each on its own indented line. -/
def render_fields (level : Nat) : String × Json → List (String × Json) → String
  | (k, v), [] => nl_indent level ++ "\"" ++ json_escape k ++ "\": " ++ render_json level v
  | (k, v), f :: fs =>
    nl_indent level ++ "\"" ++ json_escape k ++ "\": " ++ render_json level v ++ ","
    ++ render_fields level f fs
termination_by f fs => sizeOf f + sizeOf fs

end

/-- One record as `json.dump(..., indent=2)` lays it out at nesting
level 1: fields in insertion order, each on its own line indented by
4 spaces, the closing brace indented by 2 (the specialisation of
`render_json` to one record's object; see `json_dump_eq_render_json`). -/
def render_record (r : FunctionRecord) : String :=
  "\x7b" ++ nl_indent 2 ++ "\"" ++ json_escape "function_name" ++ "\": "
    ++ "\"" ++ json_escape r.function_name ++ "\""
    ++ "," ++ nl_indent 2 ++ "\"" ++ json_escape "line_count" ++ "\": "
    ++ int_repr r.line_count
    ++ "," ++ nl_indent 2 ++ "\"" ++ json_escape "code" ++ "\": "
    ++ "\"" ++ json_escape r.code ++ "\""
    ++ nl_indent 1 ++ "\x7d"

/-- The items of a non-empty serialized array, each on its own line
indented by 2, separated by commas. -/
def render_records_items : FunctionRecord → List FunctionRecord → String
  | r, [] => nl_indent 1 ++ render_record r
  | r, r2 :: rest => nl_indent 1 ++ render_record r ++ "," ++ render_records_items r2 rest

/-- The text `json.dump(functions, f, indent=2, ensure_ascii=False)` writes
to the output file; `json_dump_eq_render_json` shows it is `render_json`
applied to the persisted structure. -/
def json_dump : List FunctionRecord → String
  | [] => "[]"
  | r :: rest => "[" ++ render_records_items r rest ++ nl_indent 0 ++ "]"

/-! ## Reading the persisted JSON text back (`json.load`) -/

/-- Value of a decimal digit character. -/
def digit_val (c : Char) : Nat := c.toNat - '0'.toNat

/-- Is `c` a decimal digit? -/
def is_digit (c : Char) : Bool := '0'.toNat ≤ c.toNat && c.toNat ≤ '9'.toNat

/-- Value of a lowercase hex digit character, if it is one. -/
def hex_val (c : Char) : Option Nat :=
  if c = '0' then some 0 else if c = '1' then some 1
  else if c = '2' then some 2 else if c = '3' then some 3
  else if c = '4' then some 4 else if c = '5' then some 5
  else if c = '6' then some 6 else if c = '7' then some 7
  else if c = '8' then some 8 else if c = '9' then some 9
  else if c = 'a' then some 10 else if c = 'b' then some 11
  else if c = 'c' then some 12 else if c = 'd' then some 13
  else if c = 'e' then some 14 else if c = 'f' then some 15
  else none

/-- Consume a run of decimal digits, accumulating their value. -/
def parse_digits : List Char → Nat → Nat × List Char
  | [], acc => (acc, [])
  | c :: rest, acc =>
    if is_digit c then parse_digits rest (acc * 10 + digit_val c)
    else (acc, c :: rest)

/-- Parse a decimal integer (optional leading minus, at least one digit). -/
def parse_int : List Char → Option (Int × List Char)
  | [] => none
  | c :: rest =>
    if c = '-' then
      match rest with
      | [] => none
      | d :: _ =>
        if is_digit d then
          let p := parse_digits rest 0
          some (- (p.1 : Int), p.2)
        else none
    else if is_digit c then
      let p := parse_digits (c :: rest) 0
      some ((p.1 : Int), p.2)
    else none

/-- The inverse of a simple (two-character) JSON escape. -/
def unescape_simple (e : Char) : Option Char :=
  if e = '"' then some '"'
  else if e = '\\' then some '\\'
  else if e = 'n' then some '\n'
  else if e = 'r' then some '\r'
  else if e = 't' then some '\t'
  else if e = 'b' then some '\x08'
  else if e = 'f' then some '\x0c'
  else none

/-- Value of a four-digit hex escape `\uXXXX`. -/
def hex4_val (h1 h2 h3 h4 : Char) : Option Nat :=
  match hex_val h1, hex_val h2, hex_val h3, hex_val h4 with
  | some v1, some v2, some v3, some v4 =>
    some (((v1 * 16 + v2) * 16 + v3) * 16 + v4)
  | _, _, _, _ => none

/-- Decode a `\uXXXX` escape tail: four hex digits and the remaining
text. -/
def unescape_u : List Char → Option (Char × List Char)
  | h1 :: h2 :: h3 :: h4 :: r2 =>
    match hex4_val h1 h2 h3 h4 with
    | some v => some (Char.ofNat v, r2)
    | none => none
  | _ => none

/-- Decode the escape following a backslash: the decoded character and the
remaining text. -/
def unescape_head : List Char → Option (Char × List Char)
  | [] => none
  | e :: r =>
    match unescape_simple e with
    | some d => some (d, r)
    | none => if e = 'u' then unescape_u r else none

/-- Parse the body of a JSON string literal up to and including the closing
quote, undoing the escapes `json_escape_char` writes; returns the decoded
characters and the text after the closing quote.  The fuel argument only
bounds the recursion depth: any value larger than the decoded length
gives the parse. -/
def parse_jstring_body : Nat → List Char → Option (List Char × List Char)
  | 0, _ => none
  | fuel + 1, s =>
    match s with
    | [] => none
    | c :: rest =>
      if c = '"' then some ([], rest)
      else if c = '\\' then
        match unescape_head rest with
        | some (d, r) => (parse_jstring_body fuel r).map (fun p => (d :: p.1, p.2))
        | none => none
      else (parse_jstring_body fuel rest).map (fun p => (c :: p.1, p.2))

/-- Consume an expected literal piece of text. -/
def expect : List Char → List Char → Option (List Char)
  | [], s => some s
  | _ :: _, [] => none
  | p :: ps, c :: cs => if c = p then expect ps cs else none

/-- Parse one serialized record exactly as `render_json` lays it out at
nesting level 1: the open brace, each field on its own line indented by
4 spaces, the close brace indented by 2. -/
def parse_record_text (s : List Char) : Option (FunctionRecord × List Char) :=
  match expect "\x7b".data s with
  | none => none
  | some s1 =>
  match expect (nl_indent 2).data s1 with
  | none => none
  | some s2 =>
  match expect ("\"" ++ json_escape "function_name" ++ "\": " ++ "\"").data s2 with
  | none => none
  | some s3 =>
  match parse_jstring_body (s3.length + 1) s3 with
  | none => none
  | some (name, s4) =>
  match expect ("," ++ nl_indent 2 ++ "\"" ++ json_escape "line_count" ++ "\": ").data s4 with
  | none => none
  | some s5 =>
  match parse_int s5 with
  | none => none
  | some (k, s6) =>
  match expect ("," ++ nl_indent 2 ++ "\"" ++ json_escape "code" ++ "\": " ++ "\"").data s6 with
  | none => none
  | some s7 =>
  match parse_jstring_body (s7.length + 1) s7 with
  | none => none
  | some (code, s8) =>
  match expect (nl_indent 1 ++ "\x7d").data s8 with
  | none => none
  | some s9 => some ({ function_name := String.mk name, line_count := k,
                       code := String.mk code }, s9)

/-- Parse the items of a non-empty serialized array: each record on its own
line indented by 2, separated by commas, closed by `"\n]"`. -/
def parse_results_go : Nat → List Char → Option (List FunctionRecord × List Char)
  | 0, _ => none
  | fuel + 1, s =>
    match expect (nl_indent 1).data s with
    | none => none
    | some s1 =>
    match parse_record_text s1 with
    | none => none
    | some (r, s2) =>
    match s2 with
    | [] => none
    | c :: s3 =>
      if c = ',' then (parse_results_go fuel s3).map (fun p => (r :: p.1, p.2))
      else
        match expect (nl_indent 0 ++ "]").data (c :: s3) with
        | none => none
        | some s4 => some ([r], s4)

/-- `json.load` of the persisted file, checking the array-of-objects shape
and that the whole text is consumed: the empty array renders as `"[]"`,
a non-empty one opens with `"["`, lists its records, and closes with
`"\n]"`. -/
def json_loads_results (s : String) : Option (List FunctionRecord) :=
  if s = "[]" then some []
  else
    match expect "[".data s.data with
    | none => none
    | some s1 =>
      match parse_results_go (s1.length + 1) s1 with
      | some (rs, s2) => if s2 = [] then some rs else none
      | none => none

/-- Accumulator form of the value of a digit string. -/
def digits_val (acc : Nat) : List Char → Nat
  | [] => acc
  | c :: ds => digits_val (acc * 10 + digit_val c) ds

/-! ## The orchestrator `extract_large_functions` -/

/-- The single externally visible error kind of the extractor: the
`RuntimeError(f"Error processing file {filepath}: {str(e)}")` raised by
the `except` clause of `extract_large_functions`. -/
structure RuntimeError where
  message : String
deriving Repr, DecidableEq

/-- `extract_large_functions(filepath, min_lines=50, output_file=None)`
(extractor.py lines 63-92).  The two effectful library calls are passed in
as data: `file_content` is the outcome of `open(filepath).read()` (an
`OSError` message or the text), and `parse_module` is `cst.parse_module`
(a `ParserSyntaxError` message or the CST).  The returned pair carries the
result list together with the list of `(path, text)` writes performed;
writes happen only on the success path, after parsing and sorting.  Any
failure inside the `try` block is wrapped in the single `RuntimeError`
whose message embeds the file path and the cause. -/
def extract_large_functions (file_content : Except String String)
    (parse_module : String → Except String (List Node))
    (filepath : String) (min_lines : Int) (output_file : Option String) :
    Except RuntimeError (List FunctionRecord × List (String × String)) :=
  match file_content with
  | Except.error e =>
    Except.error { message := "Error processing file " ++ filepath ++ ": " ++ e }
  | Except.ok source_code =>
    let source_lines := splitlines source_code
    match parse_module source_code with
    | Except.error e =>
      Except.error { message := "Error processing file " ++ filepath ++ ": " ++ e }
    | Except.ok tree =>
      let functions := sort_functions (find_large_functions tree source_lines min_lines)
      let writes :=
        match output_file with
        | some path => [(path, json_dump functions)]
        | none => []
      Except.ok (functions, writes)

/-- The call with `min_lines` left at its declared default, `min_lines=50`. -/
def extract_large_functions_default (file_content : Except String String)
    (parse_module : String → Except String (List Node))
    (filepath : String) (output_file : Option String) :
    Except RuntimeError (List FunctionRecord × List (String × String)) :=
  extract_large_functions file_content parse_module filepath 50 output_file

/-! ## The webhook receiver (`app/main.py`) -/

/-- Python truthiness of the optional `x_hub_signature_256` header:
falsy when the header is absent or the empty string. -/
def header_is_falsy : Option String → Bool
  | none => true
  | some s => s.isEmpty

/-- `verify_signature(payload, signature)` from `app/main.py` lines 10-15:
reject when the shared secret is empty or the signature header is falsy;
otherwise compare the header against `"sha256=" + mac.hexdigest()` (the
comparison is `hmac.compare_digest`, i.e. equality; its constant-time
nature is a timing property outside this model).  The HMAC-SHA256 hex
digest computation of the `hmac`/`hashlib` libraries is the abstract
parameter `hmac_hex secret payload`; bytes are lists of naturals. -/
def verify_signature (hmac_hex : List Nat → List Nat → String)
    (webhook_secret : List Nat) (payload : List Nat)
    (signature : Option String) : Bool :=
  if webhook_secret.isEmpty || header_is_falsy signature then false
  else
    let expected := "sha256=" ++ hmac_hex webhook_secret payload
    expected == signature.getD ""

/-- The `POST /github/webhooks` handler from `app/main.py` lines 17-28:
on a valid signature it prints the event-type log line and returns status
`"ok"`; otherwise it returns status `"invalid signature"` and does nothing
else.  The returned pair is (status field of the response, log lines
printed). -/
def github_webhook (hmac_hex : List Nat → List Nat → String)
    (webhook_secret : List Nat) (body : List Nat)
    (x_github_event : Option String) (x_hub_signature_256 : Option String) :
    String × List String :=
  if verify_signature hmac_hex webhook_secret body x_hub_signature_256 then
    ("ok", ["✅ Webhook received: " ++
            (match x_github_event with | some e => e | none => "None")])
  else
    ("invalid signature", [])

/-! ## Lemmas about the traversal and the sort -/

example : splitlines "a\nb" = ["a", "b"] := by decide
example : splitlines "a\r\nb\r\n" = ["a", "b"] := by decide
example : splitlines "" = [] := by decide
example : splitlines "\n" = [""] := by decide
example :
    extract_function_info "f" ⟨1, 2⟩ ["def f():", "    return 1", "x = 3"] =
      { function_name := "f", line_count := 2, code := "def f():\n    return 1" } := by
  decide

theorem find_in_list_eq_nil_of_depth_pos (sl : List String) (ml : Int)
    (d : Nat) (l : List Node) (hd : 0 < d) : find_in_list sl ml d l = [] := by
  revert hd
  induction d, l using find_in_list.induct sl ml with
  | case1 => intro _; simp [find_in_list]
  | case2 depth name position children rest ih1 ih2 =>
    intro hd
    have hne : ¬ depth = 0 := by omega
    simp [find_in_list, hne, ih1 hd, ih2 hd]
  | case3 depth children rest ih1 ih2 =>
    intro hd
    simp [find_in_list, ih1 (Nat.succ_pos depth), ih2 hd]
  | case4 depth children rest ih1 ih2 =>
    intro hd
    simp [find_in_list, ih1 hd, ih2 hd]

theorem find_in_list_append (sl : List String) (ml : Int)
    (d : Nat) (l1 l2 : List Node) :
    find_in_list sl ml d (l1 ++ l2) =
      find_in_list sl ml d l1 ++ find_in_list sl ml d l2 := by
  induction l1 with
  | nil => simp [find_in_list]
  | cons n rest ih =>
    cases n <;> simp [find_in_list, ih]

theorem min_lines_le_of_mem_find_in_list (sl : List String) (ml : Int)
    (d : Nat) (l : List Node) (r : FunctionRecord)
    (hr : r ∈ find_in_list sl ml d l) : ml ≤ r.line_count := by
  revert hr
  induction d, l using find_in_list.induct sl ml with
  | case1 => intro hr; simp [find_in_list] at hr
  | case2 depth name position children rest ih1 ih2 =>
    intro hr
    simp only [find_in_list, List.mem_append] at hr
    rcases hr with (hr | hr) | hr
    · split at hr
      · split at hr
        · simp at hr; subst hr; assumption
        · simp at hr
      · simp at hr
    · exact ih1 hr
    · exact ih2 hr
  | case3 depth children rest ih1 ih2 =>
    intro hr
    simp only [find_in_list, List.mem_append] at hr
    rcases hr with hr | hr
    · exact ih1 hr
    · exact ih2 hr
  | case4 depth children rest ih1 ih2 =>
    intro hr
    simp only [find_in_list, List.mem_append] at hr
    rcases hr with hr | hr
    · exact ih1 hr
    · exact ih2 hr

theorem sort_functions_trans_aux (a b c : FunctionRecord)
    (h1 : decide (b.line_count ≤ a.line_count) = true)
    (h2 : decide (c.line_count ≤ b.line_count) = true) :
    decide (c.line_count ≤ a.line_count) = true := by
  simp at *; omega

theorem sort_functions_total_aux (a b : FunctionRecord) :
    (decide (b.line_count ≤ a.line_count) || decide (a.line_count ≤ b.line_count)) = true := by
  simp [Bool.or_eq_true, decide_eq_true_iff]
  exact Int.le_total _ _

theorem sort_functions_sorted (fs : List FunctionRecord) :
    (sort_functions fs).Pairwise (fun a b => b.line_count ≤ a.line_count) := by
  have h := List.sorted_mergeSort sort_functions_trans_aux sort_functions_total_aux fs
  simpa [sort_functions] using h

theorem sort_functions_perm (fs : List FunctionRecord) :
    (sort_functions fs).Perm fs :=
  List.mergeSort_perm fs _

theorem sort_functions_filter_eq (fs : List FunctionRecord) (k : Int) :
    (sort_functions fs).filter (fun r => r.line_count == k) =
      fs.filter (fun r => r.line_count == k) := by
  set p : FunctionRecord → Bool := fun r => r.line_count == k with hp
  have hmemk : ∀ a ∈ fs.filter p, a.line_count = k := by
    intro a ha
    have := List.of_mem_filter ha
    simpa [hp] using this
  have hc_pw : (fs.filter p).Pairwise
      (fun a b => (decide (b.line_count ≤ a.line_count)) = true) := by
    apply List.pairwise_of_forall_mem_list
    intro a ha b hb
    simp [hmemk a ha, hmemk b hb]
  have hsub2 : (fs.filter p).Sublist (sort_functions fs) :=
    List.sublist_mergeSort sort_functions_trans_aux sort_functions_total_aux
      hc_pw (List.filter_sublist fs)
  have hcp : (fs.filter p).filter p = fs.filter p := by
    apply List.filter_eq_self.mpr
    intro a ha
    simp [hp, hmemk a ha]
  have h3 : (fs.filter p).Sublist ((sort_functions fs).filter p) := by
    rw [← hcp]
    exact hsub2.filter p
  have hperm : ((sort_functions fs).filter p).Perm (fs.filter p) :=
    (sort_functions_perm fs).filter p
  exact (h3.eq_of_length hperm.length_eq.symm).symm

/-! ## Lemmas about `splitlines`, `join_newline` and extracted code -/

theorem split_lines_go_false_ne_nil (c : Char) (rest : List Char) :
    split_lines_go false (c :: rest) ≠ [] := by
  simp only [split_lines_go]
  split
  · simp_all
  · split
    · simp
    · split
      · simp
      · split <;> simp

theorem join_nl_chars_cons_cons (c : Char) (l : List Char) (ls : List (List Char)) :
    join_nl_chars ((c :: l) :: ls) = c :: join_nl_chars (l :: ls) := by
  cases ls <;> simp [join_nl_chars]

theorem join_split_prefix (cs : List Char)
    (h : ∀ c ∈ cs, is_line_break c = true → c = '\n') :
    ∃ t, join_nl_chars (split_lines_go false cs) ++ t = cs := by
  induction cs with
  | nil => exact ⟨[], rfl⟩
  | cons c rest ih =>
    have ih' := ih (fun x hx hb => h x (List.mem_cons_of_mem c hx) hb)
    by_cases hbreak : is_line_break c = true
    · have hc : c = '\n' := h c (List.mem_cons_self c rest) hbreak
      subst hc
      rw [show split_lines_go false ('\n' :: rest) = [] :: split_lines_go false rest from by
        simp [split_lines_go, (by decide : ('\n' == '\x0d') = false), hbreak]]
      cases hrest : split_lines_go false rest with
      | nil =>
        cases rest with
        | nil => exact ⟨['\n'], rfl⟩
        | cons r rs => exact absurd hrest (split_lines_go_false_ne_nil r rs)
      | cons l ls =>
        obtain ⟨t, ht⟩ := ih'
        rw [hrest] at ht
        refine ⟨t, ?_⟩
        simpa [join_nl_chars] using congrArg (fun x => '\n' :: x) ht
    · have hcr : (c == '\x0d') = false := by
        by_cases hc : c = '\x0d'
        · subst hc; exact absurd (by decide) hbreak
        · simpa using hc
      rw [show split_lines_go false (c :: rest) =
          (match split_lines_go false rest with
           | [] => [[c]]
           | l :: ls => (c :: l) :: ls) from by
        simp [split_lines_go, hcr, hbreak]]
      cases hrest : split_lines_go false rest with
      | nil => exact ⟨rest, by simp [join_nl_chars]⟩
      | cons l ls =>
        obtain ⟨t, ht⟩ := ih'
        rw [hrest] at ht
        refine ⟨t, ?_⟩
        rw [join_nl_chars_cons_cons]
        simpa using congrArg (fun x => c :: x) ht

theorem join_take_prefix (k : Nat) (ls : List (List Char)) :
    ∃ t, join_nl_chars (ls.take k) ++ t = join_nl_chars ls := by
  induction ls generalizing k with
  | nil => exact ⟨[], by simp⟩
  | cons l ls ih =>
    cases k with
    | zero => exact ⟨join_nl_chars (l :: ls), by simp [join_nl_chars]⟩
    | succ k =>
      cases ls with
      | nil => exact ⟨[], by simp [join_nl_chars]⟩
      | cons m ms =>
        cases k with
        | zero => exact ⟨'\n' :: join_nl_chars (m :: ms), by simp [join_nl_chars]⟩
        | succ k2 =>
          obtain ⟨t, ht⟩ := ih (k2 + 1)
          refine ⟨t, ?_⟩
          simp only [List.take_succ_cons, join_nl_chars, List.append_assoc] at ht ⊢
          simp [ht]

theorem join_drop_suffix (k : Nat) (ls : List (List Char)) :
    ∃ t, t ++ join_nl_chars (ls.drop k) = join_nl_chars ls := by
  induction k generalizing ls with
  | zero => exact ⟨[], by simp⟩
  | succ k ih =>
    cases ls with
    | nil => exact ⟨[], by simp [join_nl_chars]⟩
    | cons l ls2 =>
      cases ls2 with
      | nil => exact ⟨l, by simp [join_nl_chars]⟩
      | cons m ms =>
        obtain ⟨t, ht⟩ := ih (m :: ms)
        refine ⟨(l ++ ['\n']) ++ t, ?_⟩
        simp only [List.drop_succ_cons, join_nl_chars, List.append_assoc]
        simp [ht]

theorem break_free_of_mem_split_lines_go (cs : List Char) :
    ∀ (a : Bool) (l : List Char), l ∈ split_lines_go a cs →
      ∀ c ∈ l, is_line_break c = false := by
  induction cs with
  | nil => intro a l hl; simp [split_lines_go] at hl
  | cons c rest ih =>
    intro a l hl c' hc'
    simp only [split_lines_go] at hl
    split at hl
    · exact ih false l hl c' hc'
    · split at hl
      · rcases List.mem_cons.mp hl with hl | hl
        · subst hl; simp at hc'
        · exact ih true l hl c' hc'
      · split at hl
        · rcases List.mem_cons.mp hl with hl | hl
          · subst hl; simp at hc'
          · exact ih false l hl c' hc'
        · rename_i hno1 hno2
          cases hrest : split_lines_go false rest with
          | nil =>
            rw [hrest] at hl
            simp at hl
            subst hl
            simp at hc'
            subst hc'
            simpa using hno2
          | cons m ms =>
            rw [hrest] at hl
            simp only [List.mem_cons] at hl
            rcases hl with hl | hl
            · subst hl
              rcases List.mem_cons.mp hc' with hc' | hc'
              · subst hc'; simpa using hno2
              · exact ih false m (hrest ▸ List.mem_cons_self m ms) c' hc'
            · exact ih false l (hrest ▸ List.mem_cons_of_mem m hl) c' hc'

theorem count_nl_join (ls : List (List Char)) (hne : ls ≠ [])
    (hfree : ∀ l ∈ ls, l.count '\n' = 0) :
    (join_nl_chars ls).count '\n' = ls.length - 1 := by
  induction ls with
  | nil => simp at hne
  | cons l ls ih =>
    cases ls with
    | nil => simp [join_nl_chars, hfree l (by simp)]
    | cons m ms =>
      have hrec := ih (by simp) (fun x hx => hfree x (List.mem_cons_of_mem l hx))
      have hl0 : l.count '\n' = 0 := hfree l (by simp)
      simp only [join_nl_chars, List.count_append, List.count_cons, hl0] at *
      simp_all

theorem join_newline_data (ls : List String) :
    (join_newline ls).data = join_nl_chars (ls.map String.data) := by
  induction ls with
  | nil => rfl
  | cons l ls ih =>
    cases ls with
    | nil => rfl
    | cons m ms =>
      have h1 : (join_newline (l :: m :: ms)).data
          = (l.data ++ ['\n']) ++ (join_newline (m :: ms)).data := rfl
      rw [h1, ih, List.map_cons, List.map_cons]
      simp [join_nl_chars, List.append_assoc]

theorem splitlines_map_data (s : String) :
    (splitlines s).map String.data = split_lines_chars s.data := by
  rw [splitlines, List.map_map]
  exact List.map_id'' (fun cs => rfl) _

theorem extract_code_data (name : String) (span : Span) (source : String) :
    (extract_function_info name span (splitlines source)).code.data =
      join_nl_chars
        (((split_lines_chars source.data).drop (span.start_line - 1)).take
          (span.end_line - (span.start_line - 1))) := by
  simp only [extract_function_info, py_slice]
  rw [join_newline_data, List.map_take, List.map_drop, splitlines_map_data]

theorem extract_code_infix (source : String) (name : String) (span : Span)
    (h : ∀ c ∈ source.data, is_line_break c = true → c = '\n') :
    (extract_function_info name span (splitlines source)).code.data <:+: source.data := by
  obtain ⟨t1, ht1⟩ := join_take_prefix (span.end_line - (span.start_line - 1))
    ((split_lines_chars source.data).drop (span.start_line - 1))
  obtain ⟨s1, hs1⟩ := join_drop_suffix (span.start_line - 1) (split_lines_chars source.data)
  obtain ⟨t2, ht2⟩ := join_split_prefix source.data h
  refine ⟨s1, t1 ++ t2, ?_⟩
  rw [extract_code_data]
  generalize hJ : join_nl_chars
      (((split_lines_chars source.data).drop (span.start_line - 1)).take
        (span.end_line - (span.start_line - 1))) = J at ht1 ⊢
  have hstep : (s1 ++ (J ++ t1)) ++ t2 = source.data := by
    rw [ht1, hs1]
    exact ht2
  simpa [List.append_assoc] using hstep

theorem count_nl_extract_code (source : String) (name : String) (span : Span)
    (h3 : span.start_line - 1 < (split_lines_chars source.data).length)
    (h4 : span.start_line - 1 < span.end_line) :
    (extract_function_info name span (splitlines source)).code.data.count '\n' =
      min (span.end_line - (span.start_line - 1))
        ((split_lines_chars source.data).length - (span.start_line - 1)) - 1 := by
  set a := span.start_line - 1
  set b := span.end_line - (span.start_line - 1)
  set ls := split_lines_chars source.data with hls
  rw [extract_code_data]
  have hfree : ∀ l ∈ (ls.drop a).take b, l.count '\n' = 0 := by
    intro l hl
    have hmem : l ∈ ls := List.mem_of_mem_drop (List.mem_of_mem_take hl)
    have hbf := break_free_of_mem_split_lines_go source.data false l hmem
    apply List.count_eq_zero.mpr
    intro hc
    exact absurd (hbf '\n' hc) (by decide)
  have hlen : ((ls.drop a).take b).length = min b (ls.length - a) := by
    simp
  have hne : (ls.drop a).take b ≠ [] := by
    intro hnil
    have := congrArg List.length hnil
    rw [hlen] at this
    simp at this
    omega
  rw [count_nl_join _ hne hfree, hlen]



/-! ## Lemmas about the JSON rendering and its read-back -/

theorem render_record_eq (r : FunctionRecord) :
    render_record r = render_json 1 (record_to_json r) := by
  rw [record_to_json]
  rw [show render_json 1 (Json.jobj [("function_name", Json.jstr r.function_name),
        ("line_count", Json.jint r.line_count), ("code", Json.jstr r.code)])
      = "\x7b" ++ render_fields 2 ("function_name", Json.jstr r.function_name)
          [("line_count", Json.jint r.line_count), ("code", Json.jstr r.code)]
        ++ nl_indent 1 ++ "\x7d" from by rw [render_json]]
  rw [render_fields, render_fields, render_fields, render_json, render_json, render_json]
  have m1 : ∀ x : String, ("\": " : String) ++ ("\"" ++ x) = "\": \"" ++ x := by
    intro x
    rw [← String.append_assoc]
    rfl
  have m2 : ∀ x : String, ("\"" : String) ++ ("," ++ x) = "\"," ++ x := by
    intro x
    rw [← String.append_assoc]
    rfl
  simp [render_record, String.append_assoc, m1, m2]

theorem render_records_items_eq (r : FunctionRecord) (rest : List FunctionRecord) :
    render_records_items r rest = render_items 1 (record_to_json r) (rest.map record_to_json) := by
  induction rest generalizing r with
  | nil =>
    simp only [render_records_items, List.map_nil, render_items, render_record_eq]
  | cons r2 rest ih =>
    simp [render_records_items, List.map_cons, render_items, render_record_eq, ih,
      String.append_assoc]

theorem json_dump_eq_render_json (functions : List FunctionRecord) :
    json_dump functions = render_json 0 (results_to_json functions) := by
  cases functions with
  | nil =>
    show "[]" = render_json 0 (Json.jarr [])
    rw [render_json]
  | cons r rest =>
    rw [json_dump, results_to_json, List.map_cons, render_json, render_records_items_eq]

set_option maxRecDepth 8000 in
example :
    json_dump [{ function_name := "f", line_count := 2, code := "a\nb" }]
      = "[\n  \x7b\n    \"function_name\": \"f\",\n    \"line_count\": 2,\n    \"code\": \"a\\nb\"\n  \x7d\n]" := by
  decide

set_option maxRecDepth 8000 in
example :
    json_loads_results (json_dump
      [{ function_name := "f", line_count := 2, code := "a\n\"x\"" },
       { function_name := "g", line_count := -1, code := "" }])
      = some [{ function_name := "f", line_count := 2, code := "a\n\"x\"" },
              { function_name := "g", line_count := -1, code := "" }] := by
  decide

example : json_loads_results (json_dump []) = some [] := by decide

theorem expect_append (p rest : List Char) : expect p (p ++ rest) = some rest := by
  induction p with
  | nil => rfl
  | cons c p ih => simp [expect, ih]

theorem expect_split (p q s : List Char) :
    expect (p ++ q) s = match expect p s with
      | some s1 => expect q s1
      | none => none := by
  induction p generalizing s with
  | nil => simp [expect]
  | cons c p ih =>
    cases s with
    | nil => simp [expect]
    | cons d s =>
      by_cases h : d = c
      · simp [expect, h, ih]
      · simp [expect, h]

theorem hex_val_hex_digit (v : Nat) (h : v < 16) : hex_val (hex_digit v) = some v := by
  interval_cases v <;> decide

theorem is_digit_hex_digit (v : Nat) (h : v < 10) : is_digit (hex_digit v) = true := by
  interval_cases v <;> decide

theorem digit_val_hex_digit (v : Nat) (h : v < 10) : digit_val (hex_digit v) = v := by
  interval_cases v <;> decide

theorem is_digit_mem_nat_repr_go (fuel n : Nat) :
    ∀ c ∈ nat_repr_go fuel n, is_digit c = true := by
  induction fuel generalizing n with
  | zero => intro c hc; simp [nat_repr_go] at hc
  | succ fuel ih =>
    intro c hc
    rw [nat_repr_go] at hc
    split at hc
    · rename_i h10
      simp at hc
      subst hc
      exact is_digit_hex_digit n h10
    · rcases List.mem_append.mp hc with hc | hc
      · exact ih (n / 10) c hc
      · simp at hc
        subst hc
        exact is_digit_hex_digit (n % 10) (Nat.mod_lt n (by omega))

theorem nat_repr_go_ne_nil (fuel n : Nat) : nat_repr_go (fuel + 1) n ≠ [] := by
  rw [nat_repr_go]
  split
  · simp
  · simp

theorem digits_val_cons (acc : Nat) (c : Char) (t : List Char) :
    digits_val acc (c :: t) = digits_val (acc * 10 + digit_val c) t := rfl

theorem digits_val_singleton (acc : Nat) (c : Char) :
    digits_val acc [c] = acc * 10 + digit_val c := rfl

theorem parse_digits_cons (acc : Nat) (c : Char) (t : List Char) :
    parse_digits (c :: t) acc =
      if is_digit c then parse_digits t (acc * 10 + digit_val c)
      else (acc, c :: t) := rfl

theorem digits_val_append (acc : Nat) (xs ys : List Char) :
    digits_val acc (xs ++ ys) = digits_val (digits_val acc xs) ys := by
  induction xs generalizing acc with
  | nil => rfl
  | cons c xs ih =>
    rw [List.cons_append, digits_val_cons, digits_val_cons]
    exact ih _

theorem parse_digits_append (ds : List Char) (acc : Nat) (rest : List Char)
    (hds : ∀ c ∈ ds, is_digit c = true)
    (hrest : ∀ c, rest.head? = some c → is_digit c = false) :
    parse_digits (ds ++ rest) acc = (digits_val acc ds, rest) := by
  induction ds generalizing acc with
  | nil =>
    cases rest with
    | nil => rfl
    | cons c r =>
      have hc := hrest c rfl
      rw [List.nil_append, parse_digits_cons, if_neg (by simp [hc])]
      rfl
  | cons d ds ih =>
    have hd := hds d (by simp)
    rw [List.cons_append, parse_digits_cons, if_pos (by simp [hd]), digits_val_cons]
    exact ih _ (fun c hc => hds c (List.mem_cons_of_mem d hc))

theorem digits_val_nat_repr_go (fuel n acc : Nat) (h : n < fuel) :
    digits_val acc (nat_repr_go fuel n) =
      acc * 10 ^ (nat_repr_go fuel n).length + n := by
  induction fuel generalizing n acc with
  | zero => omega
  | succ fuel ih =>
    rw [nat_repr_go]
    split
    · rename_i h10
      rw [digits_val_singleton, digit_val_hex_digit n h10, List.length_singleton, pow_one]
    · rename_i h10
      rw [digits_val_append, ih (n / 10) acc (by omega), List.length_append,
        digits_val_singleton, digit_val_hex_digit (n % 10) (Nat.mod_lt n (by omega)),
        List.length_singleton, pow_succ, ← mul_assoc]
      generalize acc * 10 ^ (nat_repr_go fuel (n / 10)).length = m
      omega

theorem parse_digits_nat_repr (n : Nat) (rest : List Char)
    (hrest : ∀ c, rest.head? = some c → is_digit c = false) :
    parse_digits (nat_repr_chars n ++ rest) 0 = (n, rest) := by
  rw [parse_digits_append (nat_repr_chars n) 0 rest
    (is_digit_mem_nat_repr_go (n + 1) n) hrest]
  rw [show digits_val 0 (nat_repr_chars n) = digits_val 0 (nat_repr_go (n + 1) n) from rfl]
  rw [digits_val_nat_repr_go (n + 1) n 0 (by omega)]
  simp

theorem is_digit_mem_nat_repr_chars (n : Nat) :
    ∀ c ∈ nat_repr_chars n, is_digit c = true :=
  is_digit_mem_nat_repr_go (n + 1) n

theorem nat_repr_chars_ne_nil (n : Nat) : nat_repr_chars n ≠ [] :=
  nat_repr_go_ne_nil n n

theorem parse_int_neg_cons (d : Char) (t : List Char) :
    parse_int ('-' :: d :: t) =
      if is_digit d then
        some (- ((parse_digits (d :: t) 0).1 : Int), (parse_digits (d :: t) 0).2)
      else none := by
  simp only [parse_int]
  simp

theorem parse_int_digit_cons (c : Char) (t : List Char) (h1 : ¬ c = '-')
    (h2 : is_digit c = true) :
    parse_int (c :: t) =
      some (((parse_digits (c :: t) 0).1 : Int), (parse_digits (c :: t) 0).2) := by
  simp only [parse_int]
  rw [if_neg h1, if_pos (by simp [h2])]

theorem parse_int_repr (k : Int) (rest : List Char)
    (hrest : ∀ c, rest.head? = some c → is_digit c = false) :
    parse_int ((int_repr k).data ++ rest) = some (k, rest) := by
  by_cases hk : k < 0
  · have hdata : (int_repr k).data = '-' :: nat_repr_chars (- k).toNat := by
      rw [int_repr, if_pos hk]
      rfl
    rw [hdata]
    cases hrepr : nat_repr_chars (- k).toNat with
    | nil => exact absurd hrepr (nat_repr_chars_ne_nil _)
    | cons d ds =>
      have hd : is_digit d = true := by
        apply is_digit_mem_nat_repr_chars (- k).toNat
        rw [hrepr]
        simp
      rw [List.cons_append, List.cons_append, parse_int_neg_cons, if_pos (by simp [hd])]
      rw [show d :: (ds ++ rest) = nat_repr_chars (- k).toNat ++ rest from by
        rw [hrepr, List.cons_append]]
      rw [parse_digits_nat_repr _ _ hrest]
      have : (((- k).toNat : Int)) = - k := Int.toNat_of_nonneg (by omega)
      rw [this]
      simp
  · have hdata : (int_repr k).data = nat_repr_chars k.toNat := by
      rw [int_repr, if_neg hk]
    rw [hdata]
    cases hrepr : nat_repr_chars k.toNat with
    | nil => exact absurd hrepr (nat_repr_chars_ne_nil _)
    | cons d ds =>
      have hd : is_digit d = true := by
        apply is_digit_mem_nat_repr_chars k.toNat
        rw [hrepr]
        simp
      have hdm : ¬ d = '-' := by
        intro he
        subst he
        exact absurd hd (by decide)
      rw [List.cons_append, parse_int_digit_cons d (ds ++ rest) hdm hd]
      rw [show d :: (ds ++ rest) = nat_repr_chars k.toNat ++ rest from by
        rw [hrepr, List.cons_append]]
      rw [parse_digits_nat_repr _ _ hrest]
      have : ((k.toNat : Int)) = k := Int.toNat_of_nonneg (by omega)
      rw [this]

theorem unescape_head_simple (e d : Char) (r : List Char)
    (h : unescape_simple e = some d) : unescape_head (e :: r) = some (d, r) := by
  rw [unescape_head, h]

theorem hex4_val_digits (a b : Nat) (ha : a < 16) (hb : b < 16) :
    hex4_val '0' '0' (hex_digit a) (hex_digit b) =
      some (((0 * 16 + 0) * 16 + a) * 16 + b) := by
  rw [hex4_val]
  rw [show hex_val '0' = some 0 from rfl, hex_val_hex_digit a ha, hex_val_hex_digit b hb]

theorem unescape_head_u (h1 h2 h3 h4 : Char) (v : Nat) (t : List Char)
    (hv : hex4_val h1 h2 h3 h4 = some v) :
    unescape_head ('u' :: h1 :: h2 :: h3 :: h4 :: t) = some (Char.ofNat v, t) := by
  rw [unescape_head, show unescape_simple 'u' = none from rfl]
  show unescape_u (h1 :: h2 :: h3 :: h4 :: t) = some (Char.ofNat v, t)
  rw [unescape_u, hv]

theorem parse_jstring_body_succ_quote (fuel : Nat) (t : List Char) :
    parse_jstring_body (fuel + 1) ('"' :: t) = some ([], t) := by
  rw [parse_jstring_body]
  rfl

theorem parse_jstring_body_succ_backslash (fuel : Nat) (t : List Char) (d : Char)
    (r : List Char) (h : unescape_head t = some (d, r)) :
    parse_jstring_body (fuel + 1) ('\\' :: t) =
      (parse_jstring_body fuel r).map (fun p => (d :: p.1, p.2)) := by
  rw [parse_jstring_body, if_neg (by decide), if_pos rfl, h]

theorem parse_jstring_body_succ_plain (fuel : Nat) (c : Char) (t : List Char)
    (hq : ¬ c = '"') (hb : ¬ c = '\\') :
    parse_jstring_body (fuel + 1) (c :: t) =
      (parse_jstring_body fuel t).map (fun p => (c :: p.1, p.2)) := by
  rw [parse_jstring_body, if_neg hq, if_neg hb]

theorem parse_jstring_escape (s : List Char) : ∀ (rest : List Char) (fuel : Nat),
    s.length < fuel →
    parse_jstring_body fuel (s.flatMap json_escape_char ++ '"' :: rest) = some (s, rest) := by
  induction s with
  | nil =>
    intro rest fuel hfuel
    cases fuel with
    | zero => omega
    | succ f => exact parse_jstring_body_succ_quote f rest
  | cons c s ih =>
    intro rest fuel hfuel
    cases fuel with
    | zero => omega
    | succ f =>
      have hf : s.length < f := by
        simp only [List.length_cons] at hfuel
        omega
      rw [show (c :: s).flatMap json_escape_char
          = json_escape_char c ++ s.flatMap json_escape_char from rfl]
      by_cases hq : c = '"'
      · subst hq
        rw [show json_escape_char '"' = ['\\', '"'] from rfl]
        simp only [List.append_assoc, List.cons_append, List.nil_append]
        rw [parse_jstring_body_succ_backslash f _ '"' _
          (unescape_head_simple '"' '"' _ (by decide)), ih rest f hf]
        rfl
      · by_cases hb : c = '\\'
        · subst hb
          rw [show json_escape_char '\\' = ['\\', '\\'] from rfl]
          simp only [List.append_assoc, List.cons_append, List.nil_append]
          rw [parse_jstring_body_succ_backslash f _ '\\' _
            (unescape_head_simple '\\' '\\' _ (by decide)), ih rest f hf]
          rfl
        · by_cases hn : c = '\n'
          · subst hn
            rw [show json_escape_char '\n' = ['\\', 'n'] from rfl]
            simp only [List.append_assoc, List.cons_append, List.nil_append]
            rw [parse_jstring_body_succ_backslash f _ '\n' _
              (unescape_head_simple 'n' '\n' _ (by decide)), ih rest f hf]
            rfl
          · by_cases hr : c = '\r'
            · subst hr
              rw [show json_escape_char '\r' = ['\\', 'r'] from rfl]
              simp only [List.append_assoc, List.cons_append, List.nil_append]
              rw [parse_jstring_body_succ_backslash f _ '\r' _
                (unescape_head_simple 'r' '\r' _ (by decide)), ih rest f hf]
              rfl
            · by_cases ht : c = '\t'
              · subst ht
                rw [show json_escape_char '\t' = ['\\', 't'] from rfl]
                simp only [List.append_assoc, List.cons_append, List.nil_append]
                rw [parse_jstring_body_succ_backslash f _ '\t' _
                  (unescape_head_simple 't' '\t' _ (by decide)), ih rest f hf]
                rfl
              · by_cases hbs : c = '\x08'
                · subst hbs
                  rw [show json_escape_char '\x08' = ['\\', 'b'] from rfl]
                  simp only [List.append_assoc, List.cons_append, List.nil_append]
                  rw [parse_jstring_body_succ_backslash f _ '\x08' _
                    (unescape_head_simple 'b' '\x08' _ (by decide)), ih rest f hf]
                  rfl
                · by_cases hff : c = '\x0c'
                  · subst hff
                    rw [show json_escape_char '\x0c' = ['\\', 'f'] from rfl]
                    simp only [List.append_assoc, List.cons_append, List.nil_append]
                    rw [parse_jstring_body_succ_backslash f _ '\x0c' _
                      (unescape_head_simple 'f' '\x0c' _ (by decide)), ih rest f hf]
                    rfl
                  · by_cases hctrl : c.toNat < 32
                    · rw [json_escape_char, if_neg hq, if_neg hb, if_neg hn, if_neg hr,
                        if_neg ht, if_neg hbs, if_neg hff, if_pos hctrl]
                      simp only [List.append_assoc, List.cons_append, List.nil_append]
                      rw [parse_jstring_body_succ_backslash f _
                        (Char.ofNat (((0 * 16 + 0) * 16 + c.toNat / 16) * 16 + c.toNat % 16)) _
                        (unescape_head_u '0' '0' (hex_digit (c.toNat / 16))
                          (hex_digit (c.toNat % 16)) _ _
                          (hex4_val_digits (c.toNat / 16) (c.toNat % 16)
                            (by omega) (by omega))), ih rest f hf]
                      have hval : ((0 * 16 + 0) * 16 + c.toNat / 16) * 16 + c.toNat % 16
                          = c.toNat := by omega
                      rw [hval, Char.ofNat_toNat]
                      rfl
                    · rw [json_escape_char, if_neg hq, if_neg hb, if_neg hn, if_neg hr,
                        if_neg ht, if_neg hbs, if_neg hff, if_neg hctrl]
                      simp only [List.append_assoc, List.cons_append, List.nil_append]
                      rw [parse_jstring_body_succ_plain f c _ hq hb, ih rest f hf]
                      rfl

theorem string_data_append (a b : String) : (a ++ b).data = a.data ++ b.data := rfl

theorem json_escape_data (s : String) :
    (json_escape s).data = s.data.flatMap json_escape_char := rfl

theorem string_quote_data : ("\"" : String).data = ['"'] := rfl

theorem string_mk_data (s : String) : String.mk s.data = s := rfl

theorem json_escape_char_length_pos (c : Char) : 1 ≤ (json_escape_char c).length := by
  rw [json_escape_char]
  repeat' split
  all_goals simp

theorem length_le_flatMap_escape (s : List Char) :
    s.length ≤ (s.flatMap json_escape_char).length := by
  induction s with
  | nil => simp
  | cons c s ih =>
    rw [show (c :: s).flatMap json_escape_char
        = json_escape_char c ++ s.flatMap json_escape_char from rfl]
    rw [List.length_append, List.length_cons]
    have := json_escape_char_length_pos c
    omega

theorem parse_jstring_body_auto (s rest : List Char) :
    parse_jstring_body ((s.flatMap json_escape_char ++ '"' :: rest).length + 1)
      (s.flatMap json_escape_char ++ '"' :: rest) = some (s, rest) := by
  apply parse_jstring_escape
  have h1 := length_le_flatMap_escape s
  rw [List.length_append]
  omega

theorem parse_int_repr_before_code (k : Int) (t : List Char) :
    parse_int ((int_repr k).data ++
        (("," ++ nl_indent 2 ++ "\"" ++ json_escape "code" ++ "\": " ++ "\"").data ++ t))
      = some (k, ("," ++ nl_indent 2 ++ "\"" ++ json_escape "code" ++ "\": " ++ "\"").data ++ t) := by
  apply parse_int_repr
  intro c hc
  rw [show ((("," ++ nl_indent 2 ++ "\"" ++ json_escape "code" ++ "\": " ++ "\"").data ++ t)).head?
      = some ',' from rfl] at hc
  simp only [Option.some.injEq] at hc
  subst hc
  decide

theorem parse_record_render (r : FunctionRecord) (rest : List Char) :
    parse_record_text ((render_record r).data ++ rest) = some (r, rest) := by
  have htext : (render_record r).data ++ rest
      = "\x7b".data ++ ((nl_indent 2).data ++
        (("\"" ++ json_escape "function_name" ++ "\": " ++ "\"").data ++
          (r.function_name.data.flatMap json_escape_char ++ '"' ::
            (("," ++ nl_indent 2 ++ "\"" ++ json_escape "line_count" ++ "\": ").data ++
              ((int_repr r.line_count).data ++
                (("," ++ nl_indent 2 ++ "\"" ++ json_escape "code" ++ "\": " ++ "\"").data ++
                  (r.code.data.flatMap json_escape_char ++ '"' ::
                    ((nl_indent 1 ++ "\x7d").data ++ rest)))))))) := by
    simp only [render_record, string_data_append, json_escape_data, string_quote_data,
      List.append_assoc, List.singleton_append, List.cons_append, List.nil_append]
  rw [htext]
  simp only [parse_record_text, expect_append, parse_jstring_body_auto,
    parse_int_repr_before_code, expect_append, string_mk_data]

theorem expect_close_bracket (rest : List Char) :
    expect (nl_indent 0 ++ "]").data ('\n' :: ']' :: rest) = some rest := rfl

theorem parse_results_go_render (fs : List FunctionRecord) :
    ∀ (r : FunctionRecord) (rest : List Char) (fuel : Nat), fs.length < fuel →
    parse_results_go fuel
        ((render_records_items r fs).data ++ ((nl_indent 0 ++ "]").data ++ rest))
      = some (r :: fs, rest) := by
  induction fs with
  | nil =>
    intro r rest fuel hfuel
    cases fuel with
    | zero => omega
    | succ f =>
      rw [show (render_records_items r []).data ++ ((nl_indent 0 ++ "]").data ++ rest)
          = (nl_indent 1).data ++ ((render_record r).data ++ ('\n' :: ']' :: rest)) from by
        simp only [render_records_items, string_data_append, List.append_assoc]
        all_goals rfl]
      rw [parse_results_go]
      simp only [expect_append, parse_record_render]
      rw [if_neg (by decide), expect_close_bracket]
  | cons r2 fs ih =>
    intro r rest fuel hfuel
    cases fuel with
    | zero => omega
    | succ f =>
      have hf : fs.length < f := by
        simp only [List.length_cons] at hfuel
        omega
      rw [show (render_records_items r (r2 :: fs)).data ++ ((nl_indent 0 ++ "]").data ++ rest)
          = (nl_indent 1).data ++ ((render_record r).data ++
              (',' :: ((render_records_items r2 fs).data ++ ((nl_indent 0 ++ "]").data ++ rest))))
          from by
        simp only [render_records_items, string_data_append, List.append_assoc]
        all_goals rfl]
      rw [parse_results_go]
      simp only [expect_append, parse_record_render]
      simp only [if_true]
      rw [ih r2 _ f hf]
      rfl

theorem render_records_items_length (r : FunctionRecord) (fs : List FunctionRecord) :
    fs.length + 1 ≤ (render_records_items r fs).length := by
  induction fs generalizing r with
  | nil =>
    simp only [render_records_items, String.length_append, List.length_nil]
    rw [show (nl_indent 1).length = 3 from rfl]
    omega
  | cons r2 fs ih =>
    have hih := ih r2
    simp only [render_records_items, String.length_append, List.length_cons]
    rw [show (nl_indent 1).length = 3 from rfl, show ("," : String).length = 1 from rfl]
    omega

theorem json_loads_dump (fs : List FunctionRecord) :
    json_loads_results (json_dump fs) = some fs := by
  cases fs with
  | nil => rfl
  | cons r fs =>
    rw [show json_dump (r :: fs)
        = "[" ++ render_records_items r fs ++ nl_indent 0 ++ "]" from rfl]
    rw [json_loads_results]
    have hlen := render_records_items_length r fs
    rw [if_neg (by
      intro h
      have hl := congrArg String.length h
      simp only [String.length_append] at hl
      rw [show ("[" : String).length = 1 from rfl, show ("]" : String).length = 1 from rfl,
        show (nl_indent 0).length = 1 from rfl, show ("[]" : String).length = 2 from rfl] at hl
      omega)]
    rw [show ("[" ++ render_records_items r fs ++ nl_indent 0 ++ "]").data
        = "[".data ++ ((render_records_items r fs).data ++ (nl_indent 0 ++ "]").data) from by
      simp only [string_data_append, List.append_assoc]]
    simp only [expect_append]
    have hgo := parse_results_go_render fs r []
      (((render_records_items r fs).data ++ (nl_indent 0 ++ "]").data).length + 1)
      (by
        rw [List.length_append]
        have : fs.length + 1 ≤ (render_records_items r fs).data.length := hlen
        omega)
    rw [List.append_nil] at hgo
    rw [hgo]
    rfl
/-! ## The claims -/

/-- C1: no function lexically nested inside a class definition ever appears
in the extractor's result, regardless of its line count or of the
`min_lines` threshold: a subtree rooted at a `ClassDef` contributes nothing
at any depth, the visitor records nothing at any positive class-nesting
depth (it records a `FunctionDef` iff the depth counter is zero at the
moment of visiting), and inserting an arbitrary class subtree anywhere at
module level leaves the sorted output unchanged. -/
theorem claim_C1 :
    (∀ (source_lines : List String) (min_lines : Int) (depth : Nat) (cs : List Node),
      find_in_list source_lines min_lines depth [Node.ClassDef cs] = [])
    ∧ (∀ (source_lines : List String) (min_lines : Int) (depth : Nat) (l : List Node),
        0 < depth → find_in_list source_lines min_lines depth l = [])
    ∧ (∀ (tree1 tree2 cs : List Node) (source_lines : List String) (min_lines : Int),
        sort_functions (find_large_functions (tree1 ++ Node.ClassDef cs :: tree2)
            source_lines min_lines)
          = sort_functions (find_large_functions (tree1 ++ tree2) source_lines min_lines)) := by
  refine ⟨?_, ?_, ?_⟩
  · intro sl ml d cs
    simp [find_in_list, find_in_list_eq_nil_of_depth_pos sl ml (d + 1) cs (Nat.succ_pos d)]
  · exact fun sl ml d l h => find_in_list_eq_nil_of_depth_pos sl ml d l h
  · intro t1 t2 cs sl ml
    unfold find_large_functions
    rw [find_in_list_append, find_in_list_append]
    simp [find_in_list, find_in_list_eq_nil_of_depth_pos sl ml 1 cs (by omega)]

/-- Witness for C1 at concrete inputs: a 1-line function visited at class
depth 1 is not recorded, and a module consisting of one class with a large
method yields an empty result. -/
theorem claim_C1_witness :
    find_in_list ["a"] 1 1 [Node.FunctionDef "f" ⟨1, 1⟩ []] = []
    ∧ sort_functions (find_large_functions
        [Node.ClassDef [Node.FunctionDef "m" ⟨1, 100⟩ []]] ["a"] 1) = [] := by
  constructor
  · exact claim_C1.2.1 ["a"] 1 1 [Node.FunctionDef "f" ⟨1, 1⟩ []] (by decide)
  · have h := claim_C1.2.2 [] [] [Node.FunctionDef "m" ⟨1, 100⟩ []] ["a"] 1
    simp only [List.nil_append] at h
    rw [h]
    simp [find_large_functions, find_in_list, sort_functions]

/-- C2: for every tree and source, the output of the pipeline (the visitor
followed by the sort) is ordered non-increasing by `line_count`, and for
every value `k` the sub-sequence of records with `line_count = k` is
exactly the corresponding sub-sequence of the pre-sort visitor output,
which lists functions in document order — the sort is stable. -/
theorem claim_C2 :
    ∀ (tree : List Node) (source_lines : List String) (min_lines : Int),
    (sort_functions (find_large_functions tree source_lines min_lines)).Pairwise
      (fun a b => b.line_count ≤ a.line_count)
    ∧ ∀ k : Int,
        (sort_functions (find_large_functions tree source_lines min_lines)).filter
            (fun r => r.line_count == k)
          = (find_large_functions tree source_lines min_lines).filter
              (fun r => r.line_count == k) := by
  intro tree sl ml
  exact ⟨sort_functions_sorted _, fun k => sort_functions_filter_eq _ k⟩

/-- C4: the size filter is inclusive — any top-level function whose
`line_count` equals `min_lines` appears in the final output, no record
whose `line_count` equals `min_lines - 1` ever appears (every emitted
record satisfies the inclusive bound), and calling the extractor without
`min_lines` uses the declared default of 50. -/
theorem claim_C4 :
    (∀ (source_lines : List String) (min_lines : Int) (name : String) (span : Span)
      (cs pre post : List Node),
      (extract_function_info name span source_lines).line_count = min_lines →
      extract_function_info name span source_lines ∈
        sort_functions (find_large_functions
          (pre ++ Node.FunctionDef name span cs :: post) source_lines min_lines))
    ∧ (∀ (source_lines : List String) (min_lines : Int) (tree : List Node)
        (r : FunctionRecord),
        r ∈ sort_functions (find_large_functions tree source_lines min_lines) →
        ¬ r.line_count = min_lines - 1)
    ∧ (∀ (file_content : Except String String)
        (parse_module : String → Except String (List Node))
        (filepath : String) (output_file : Option String),
        extract_large_functions_default file_content parse_module filepath output_file
          = extract_large_functions file_content parse_module filepath 50 output_file) := by
  refine ⟨?_, ?_, fun fc pm fp out => rfl⟩
  · intro sl ml name span cs pre post h
    rw [List.Perm.mem_iff (sort_functions_perm _)]
    unfold find_large_functions
    rw [find_in_list_append]
    have hle : ml ≤ (extract_function_info name span sl).line_count := by omega
    simp [find_in_list, hle]
  · intro sl ml tree r hr
    have hmem : r ∈ find_large_functions tree sl ml :=
      (List.Perm.mem_iff (sort_functions_perm _)).mp hr
    have := min_lines_le_of_mem_find_in_list sl ml 0 tree r hmem
    omega

/-- Witness for C4 at concrete inputs: a 3-line function at threshold 3 is
in the output, its size is not the excluded `min_lines - 1`, and the
default threshold is 50. -/
theorem claim_C4_witness :
    extract_function_info "f" ⟨1, 3⟩ ["a", "b", "c"] ∈
      sort_functions (find_large_functions
        ([] ++ Node.FunctionDef "f" ⟨1, 3⟩ [] :: []) ["a", "b", "c"] 3)
    ∧ ¬ (extract_function_info "f" ⟨1, 3⟩ ["a", "b", "c"]).line_count = 3 - 1
    ∧ extract_large_functions_default (Except.error "e") (fun _ => Except.ok []) "p" none
        = extract_large_functions (Except.error "e") (fun _ => Except.ok []) "p" 50 none := by
  have hmem := claim_C4.1 ["a", "b", "c"] 3 "f" ⟨1, 3⟩ [] [] [] (by decide)
  exact ⟨hmem, claim_C4.2.1 ["a", "b", "c"] 3 _ _ hmem,
    claim_C4.2.2 (Except.error "e") (fun _ => Except.ok []) "p" none⟩

/-- C7: a function definition nested inside another function (and not
inside any class) is still visited with the class-depth counter at zero,
so its record appears in the final output whenever its `line_count` meets
the threshold — exclusion depends only on class nesting, never on a
generic function-nesting counter. -/
theorem claim_C7 :
    ∀ (source_lines : List String) (min_lines : Int)
      (outer_name inner_name : String) (outer_span inner_span : Span)
      (pre post inner_children : List Node),
    min_lines ≤ (extract_function_info inner_name inner_span source_lines).line_count →
    extract_function_info inner_name inner_span source_lines ∈
      sort_functions (find_large_functions
        [Node.FunctionDef outer_name outer_span
          (pre ++ Node.FunctionDef inner_name inner_span inner_children :: post)]
        source_lines min_lines) := by
  intro sl ml onm inm osp isp pre post ics h
  rw [List.Perm.mem_iff (sort_functions_perm _)]
  unfold find_large_functions
  simp only [find_in_list, find_in_list_append]
  simp [find_in_list, h]

/-- Witness for C7 at a concrete input: a 1-line function nested directly
inside a 2-line top-level function is itself returned at threshold 1. -/
theorem claim_C7_witness :
    extract_function_info "g" ⟨2, 2⟩ ["def f():", "    def g(): pass"] ∈
      sort_functions (find_large_functions
        [Node.FunctionDef "f" ⟨1, 2⟩ ([] ++ Node.FunctionDef "g" ⟨2, 2⟩ [] :: [])]
        ["def f():", "    def g(): pass"] 1) :=
  claim_C7 ["def f():", "    def g(): pass"] 1 "f" "g" ⟨1, 2⟩ ⟨2, 2⟩ [] [] [] (by decide)

/-- Counterexample to C3 as stated: for a source file using CRLF line
endings, the extracted `code` joins the lines with `'\n'`, not with the
document's own newline convention, so it does not reproduce the original
contiguous line range — it is not even a substring of the original text. -/
theorem claim_C3_counterexample :
    (extract_function_info "f" ⟨1, 2⟩
        (splitlines "def f():\r\n    return 1")).code = "def f():\n    return 1"
    ∧ ¬ ((extract_function_info "f" ⟨1, 2⟩
          (splitlines "def f():\r\n    return 1")).code.data
            <:+: "def f():\r\n    return 1".data)
    ∧ (extract_function_info "f" ⟨1, 2⟩
        (splitlines "def f():\r\n    return 1")).code ≠ "def f():\r\n    return 1" := by
  refine ⟨by decide, by decide, by decide⟩

/-- C3 (amended): the `code` field is the slice of the 1-indexed line array
joined with `'\n'`; for documents whose line-boundary characters are all
`'\n'` (in particular no CRLF, lone CR, form feed, etc.) this reproduces
the corresponding region of the original source verbatim — the extracted
text occurs as a contiguous substring of the original, preserving
comments, blank lines and indentation.  For other line conventions the
separators are normalised to `'\n'` instead of preserved. -/
theorem claim_C3 :
    ∀ (source : String) (name : String) (span : Span),
    (∀ c ∈ source.data, is_line_break c = true → c = '\n') →
    (extract_function_info name span (splitlines source)).code
        = join_newline (py_slice (splitlines source) (span.start_line - 1) span.end_line)
    ∧ (extract_function_info name span (splitlines source)).code.data <:+: source.data := by
  intro source name span h
  exact ⟨rfl, extract_code_infix source name span h⟩

/-- Witness for C3 (amended) at a concrete LF-only source. -/
theorem claim_C3_witness :
    (extract_function_info "f" ⟨1, 2⟩ (splitlines "def f():\n    return 1\nx = 3")).code
        = join_newline (py_slice (splitlines "def f():\n    return 1\nx = 3") 0 2)
    ∧ (extract_function_info "f" ⟨1, 2⟩
        (splitlines "def f():\n    return 1\nx = 3")).code.data
          <:+: "def f():\n    return 1\nx = 3".data :=
  claim_C3 "def f():\n    return 1\nx = 3" "f" ⟨1, 2⟩ (by decide)

/-- Counterexample to C6 as stated: the extractor has no bounds check and
no error path — `_extract_function_info` always returns a record, Python's
slice clamping silently truncating the text.  With a 2-line document and a
reported span of lines 1-5, a record is returned whose `line_count` is 5
while its `code` holds only the document's 2 lines. -/
theorem claim_C6_counterexample :
    (extract_function_info "f" ⟨1, 5⟩ (splitlines "a\nb")).line_count = 5
    ∧ (extract_function_info "f" ⟨1, 5⟩ (splitlines "a\nb")).code = "a\nb"
    ∧ (extract_function_info "f" ⟨1, 5⟩ (splitlines "a\nb")).code.data.count '\n' + 1 = 2 := by
  refine ⟨by decide, by decide, by decide⟩

/-- C6 (amended): when the position index's `end_line` exceeds the number
of lines in the document, range extraction does not fail — the slice is
clamped to the document, so the returned record's `code` contains exactly
the lines from `start_line` to the end of the document, strictly fewer
lines than the advertised `line_count`. -/
theorem claim_C6 :
    ∀ (source : String) (name : String) (span : Span),
    1 ≤ span.start_line → span.start_line ≤ (splitlines source).length →
    (splitlines source).length < span.end_line →
    (extract_function_info name span (splitlines source)).code.data.count '\n'
        = (splitlines source).length - span.start_line
    ∧ ((extract_function_info name span (splitlines source)).code.data.count '\n' : Int) + 1
        < (extract_function_info name span (splitlines source)).line_count := by
  intro source name span h1 h2 h3
  have hlen : (splitlines source).length = (split_lines_chars source.data).length := by
    rw [← splitlines_map_data]
    simp
  rw [hlen] at h2 h3
  have hcount := count_nl_extract_code source name span (by omega) (by omega)
  have hmin : min (span.end_line - (span.start_line - 1))
      ((split_lines_chars source.data).length - (span.start_line - 1))
        = (split_lines_chars source.data).length - span.start_line + 1 := by
    omega
  constructor
  · rw [hcount, hmin, hlen]
    omega
  · rw [hcount, hmin]
    simp only [extract_function_info]
    push_cast [show span.start_line ≤ (split_lines_chars source.data).length from h2]
    omega

/-- Witness for C6 (amended) at a concrete input: span 1-5 over a 2-line
document yields code with 1 newline (2 lines) against a `line_count` of 5. -/
theorem claim_C6_witness :
    (extract_function_info "f" ⟨1, 5⟩ (splitlines "a\nb")).code.data.count '\n'
        = (splitlines "a\nb").length - 1
    ∧ ((extract_function_info "f" ⟨1, 5⟩ (splitlines "a\nb")).code.data.count '\n' : Int) + 1
        < (extract_function_info "f" ⟨1, 5⟩ (splitlines "a\nb")).line_count :=
  claim_C6 "a\nb" "f" ⟨1, 5⟩ (by decide) (by decide) (by decide)

/-- C10: for every span lying inside the document's line array, the
extracted `code` consists of exactly `line_count` lines — it contains
exactly `line_count - 1` newline characters, where
`line_count = end_line - start_line + 1`. -/
theorem claim_C10 :
    ∀ (source : String) (name : String) (span : Span),
    1 ≤ span.start_line → span.start_line ≤ span.end_line →
    span.end_line ≤ (splitlines source).length →
    ((extract_function_info name span (splitlines source)).code.data.count '\n' : Int)
        = (extract_function_info name span (splitlines source)).line_count - 1 := by
  intro source name span h1 h2 h3
  have hlen : (splitlines source).length = (split_lines_chars source.data).length := by
    rw [← splitlines_map_data]
    simp
  rw [hlen] at h3
  have hcount := count_nl_extract_code source name span (by omega) (by omega)
  have hmin : min (span.end_line - (span.start_line - 1))
      ((split_lines_chars source.data).length - (span.start_line - 1))
        = span.end_line - span.start_line + 1 := by
    omega
  rw [hcount, hmin]
  simp only [extract_function_info]
  push_cast [show span.start_line ≤ span.end_line from h2]
  omega

/-- Witness for C10 at a concrete input: lines 2-3 of a 3-line document
give 2 lines of code, 1 newline, `line_count` 2. -/
theorem claim_C10_witness :
    ((extract_function_info "f" ⟨2, 3⟩ (splitlines "a\nb\nc")).code.data.count '\n' : Int)
        = (extract_function_info "f" ⟨2, 3⟩ (splitlines "a\nb\nc")).line_count - 1 :=
  claim_C10 "a\nb\nc" "f" ⟨2, 3⟩ (by decide) (by decide) (by decide)

/-- C5: every failure mode — unreadable input or a parse failure — yields
the single wrapped error whose message is exactly
`"Error processing file " ++ filepath ++ ": " ++ cause`, embedding the
input path and the root cause; every error the orchestrator can return has
this shape (callers never see a bare internal error), and an error carries
no result list and no file write, so on a syntax error nothing is written
even when an output destination was supplied. -/
theorem claim_C5 :
    ∀ (file_content : Except String String)
      (parse_module : String → Except String (List Node))
      (filepath : String) (min_lines : Int) (output_file : Option String),
    (∀ e, file_content = Except.error e →
      extract_large_functions file_content parse_module filepath min_lines output_file
        = Except.error { message := "Error processing file " ++ filepath ++ ": " ++ e })
    ∧ (∀ source e, file_content = Except.ok source → parse_module source = Except.error e →
        extract_large_functions file_content parse_module filepath min_lines output_file
          = Except.error { message := "Error processing file " ++ filepath ++ ": " ++ e })
    ∧ (∀ err, extract_large_functions file_content parse_module filepath min_lines output_file
          = Except.error err →
        ∃ cause, err.message = "Error processing file " ++ filepath ++ ": " ++ cause) := by
  intro fc pm fp ml out
  refine ⟨?_, ?_, ?_⟩
  · intro e he
    subst he
    rfl
  · intro source e hfc hpm
    subst hfc
    simp [extract_large_functions, hpm]
  · intro err herr
    cases fc with
    | error e =>
      simp only [extract_large_functions, Except.error.injEq] at herr
      exact ⟨e, by rw [← herr]⟩
    | ok source =>
      cases hpm : pm source with
      | error e =>
        simp only [extract_large_functions, hpm, Except.error.injEq] at herr
        exact ⟨e, by rw [← herr]⟩
      | ok tree =>
        simp [extract_large_functions, hpm] at herr

/-- Witness for C5 at concrete inputs: a read failure and a parse failure,
the latter with an output destination supplied. -/
theorem claim_C5_witness :
    extract_large_functions (Except.error "No such file or directory")
        (fun _ => Except.ok []) "missing.py" 50 none
      = Except.error { message := "Error processing file " ++ "missing.py" ++ ": "
          ++ "No such file or directory" }
    ∧ extract_large_functions (Except.ok "def f(")
        (fun _ => Except.error "Syntax Error") "bad.py" 50 (some "out.json")
      = Except.error { message := "Error processing file " ++ "bad.py" ++ ": "
          ++ "Syntax Error" } :=
  ⟨(claim_C5 (Except.error "No such file or directory") (fun _ => Except.ok [])
      "missing.py" 50 none).1 "No such file or directory" rfl,
   (claim_C5 (Except.ok "def f(") (fun _ => Except.error "Syntax Error")
      "bad.py" 50 (some "out.json")).2.1 "def f(" "Syntax Error" rfl rfl⟩

/-- C8: the persisted text is exactly `json.dump(..., indent=2)` of the
array of per-record objects with fields in the order `function_name`,
`line_count`, `code`, in the order of the in-memory list; reading the
persisted form back (parsing the written text, or decoding the structure)
yields a list deep-equal to the in-memory result, and persisting neither
changes the returned result list nor happens at all without a destination —
with a destination exactly one write of the rendered text is performed and
the same list is returned. -/
theorem claim_C8 :
    ∀ (rs : List FunctionRecord),
    json_to_results (results_to_json rs) = some rs
    ∧ json_loads_results (json_dump rs) = some rs
    ∧ json_dump rs = render_json 0 (results_to_json rs)
    ∧ (∀ r : FunctionRecord, record_to_json r
        = Json.jobj [("function_name", Json.jstr r.function_name),
                     ("line_count", Json.jint r.line_count),
                     ("code", Json.jstr r.code)])
    ∧ ∀ (file_content : Except String String)
        (parse_module : String → Except String (List Node))
        (filepath : String) (min_lines : Int) (path : String)
        (fs : List FunctionRecord),
        extract_large_functions file_content parse_module filepath min_lines none
            = Except.ok (fs, []) →
        extract_large_functions file_content parse_module filepath min_lines (some path)
            = Except.ok (fs, [(path, json_dump fs)]) := by
  intro rs
  refine ⟨?_, json_loads_dump rs, json_dump_eq_render_json rs, fun r => rfl, ?_⟩
  · show decode_record_list (rs.map record_to_json) = some rs
    induction rs with
    | nil => rfl
    | cons r rest ih =>
      show (match json_to_record (record_to_json r),
              decode_record_list (rest.map record_to_json) with
            | some r, some rs => some (r :: rs)
            | _, _ => none) = some (r :: rest)
      rw [ih]
      rfl
  · intro fc pm fp ml path fs hnone
    cases fc with
    | error e => simp [extract_large_functions] at hnone
    | ok source =>
      cases hpm : pm source with
      | error e => simp [extract_large_functions, hpm] at hnone
      | ok tree =>
        simp only [extract_large_functions, hpm, Except.ok.injEq, Prod.mk.injEq] at hnone ⊢
        simp [hnone.1]

/-- Witness for C8 at a concrete run: one 2-line function, persisted and
returned identically. -/
theorem claim_C8_witness :
    extract_large_functions (Except.ok "def f():\n    pass")
        (fun _ => Except.ok [Node.FunctionDef "f" ⟨1, 2⟩ []]) "a.py" 1 (some "out.json")
      = Except.ok ([extract_function_info "f" ⟨1, 2⟩ (splitlines "def f():\n    pass")],
          [("out.json",
            json_dump [extract_function_info "f" ⟨1, 2⟩ (splitlines "def f():\n    pass")])]) :=
  (claim_C8 []).2.2.2.2 (Except.ok "def f():\n    pass")
    (fun _ => Except.ok [Node.FunctionDef "f" ⟨1, 2⟩ []]) "a.py" 1 "out.json"
    [extract_function_info "f" ⟨1, 2⟩ (splitlines "def f():\n    pass")]
    (by norm_num [extract_large_functions, find_large_functions, find_in_list,
      sort_functions, List.mergeSort_singleton, extract_function_info])

/-- C9: the webhook's signature check accepts exactly when the shared
secret is non-empty and the signature header is present and equal to
`"sha256=" ++` the HMAC-SHA256 hex digest of the raw body under the
secret (such a header is automatically non-empty); on acceptance the
endpoint returns status `"ok"` and does nothing besides logging the event
type, and on rejection it returns status `"invalid signature"` and logs
nothing. -/
theorem claim_C9 :
    ∀ (hmac_hex : List Nat → List Nat → String)
      (secret payload : List Nat) (signature : Option String) (event : Option String),
    (verify_signature hmac_hex secret payload signature = true ↔
      secret ≠ [] ∧ signature = some ("sha256=" ++ hmac_hex secret payload))
    ∧ (verify_signature hmac_hex secret payload signature = true →
        github_webhook hmac_hex secret payload event signature
          = ("ok", ["✅ Webhook received: " ++
              (match event with | some e => e | none => "None")]))
    ∧ (verify_signature hmac_hex secret payload signature = false →
        github_webhook hmac_hex secret payload event signature
          = ("invalid signature", [])) := by
  intro hmac_hex secret payload signature event
  refine ⟨?_, ?_, ?_⟩
  · constructor
    · intro hv
      unfold verify_signature at hv
      split at hv
      · simp at hv
      · rename_i hcond
        simp only [Bool.or_eq_true, not_or] at hcond
        obtain ⟨hsec, hfals⟩ := hcond
        refine ⟨by simpa using hsec, ?_⟩
        cases signature with
        | none => simp [header_is_falsy] at hfals
        | some s =>
          simp only [Option.getD_some] at hv
          have : ("sha256=" ++ hmac_hex secret payload) = s := by
            simpa using hv
          rw [this]
    · rintro ⟨hsec, hsig⟩
      subst hsig
      unfold verify_signature
      have hnonempty : ("sha256=" ++ hmac_hex secret payload).isEmpty = false := by
        rw [Bool.eq_false_iff]
        intro hempty
        have hstr : ("sha256=" ++ hmac_hex secret payload) = "" :=
          (String.isEmpty_iff _).mp hempty
        have hlen := congrArg String.length hstr
        rw [String.length_append] at hlen
        have h7 : ("sha256=" : String).length = 7 := rfl
        rw [h7] at hlen
        simp at hlen
      have hsec' : secret.isEmpty = false := by simpa using hsec
      simp [header_is_falsy, hsec', hnonempty]
  · intro hv
    unfold github_webhook
    rw [hv]
    simp
  · intro hv
    unfold github_webhook
    rw [hv]
    simp

/-- Witness for C9 at concrete inputs: a matching header is accepted and
logged, a mismatching one is rejected. -/
theorem claim_C9_witness :
    github_webhook (fun _ _ => "0a1b") [7] [1, 2] (some "push") (some "sha256=0a1b")
      = ("ok", ["✅ Webhook received: push"])
    ∧ github_webhook (fun _ _ => "0a1b") [7] [1, 2] (some "push") (some "sha256=ffff")
      = ("invalid signature", []) :=
  ⟨(claim_C9 (fun _ _ => "0a1b") [7] [1, 2] (some "sha256=0a1b") (some "push")).2.1
      (by decide),
   (claim_C9 (fun _ _ => "0a1b") [7] [1, 2] (some "sha256=ffff") (some "push")).2.2
      (by decide)⟩
